import Mathlib

/-!
Verification of the s3gof3r concurrency core.

A shallow embedding, in Lean 4, of the parts of the s3gof3r library that the
specification's claims are about:

* the ordered ranged-GET pipeline (`getter`): its `Read`/`Close` state machine,
  the chunk layout produced by `initChunks`, and the `qWait` backpressure
  protocol between workers and the reader;
* the async `PutController` and the `tomb`-based `Stop` path;
* the `speedTracker` rate estimator and the `readerWrapper` seek method from
  `util.go`;
* the early empty-path guard of `Bucket.GetReader` / `Bucket.GetAsync`;
* `S3.Region` with its endpoint-matching regular expression.

Machine integers (`int64`, `int`) are modelled as `Int`/`Nat`: none of the
quantities involved (byte counts, chunk ids) approach overflow in the code's
domain, and the code performs no wrapping arithmetic on them.  `float64`
arithmetic in the speed tracker is modelled over `ℚ` with explicit truncation
(the property checked there is integer bookkeeping, not rounding).  Byte
*contents* are not modelled: the claims under study are about byte counts,
ordering, errors and lifecycle, and the getter's copy loop only ever inspects
lengths (`copy(p[nw:], g.rChunk.b[g.cIdx:g.rChunk.size])` contributes its
length `n` to all counters).
-/

/-! Section: getter read/close state machine (`getter.Read`, `getter.Close`)

The `getter` struct fields that `Read` and `Close` consult are embedded
directly; the held chunk `g.rChunk` is represented by its `size` field, the
only field `Read` uses besides the buffer contents.  Go `error` values that
the getter can return are enumerated by `GoErr`; `g.err` (the sticky error
set by a failing worker) is `gerr : Option GoErr`.
-/

/-- The Go `error` values produced by the getter paths under study.
`eof` is `io.EOF`, `einval` is `syscall.EINVAL`, `tooMany` and `noChunks`
are the two `fmt.Errorf` cases in `getter.Read`, `chunkErr` is an error
returned by `getter.nextChunk`, `shortRead` and `md5Mismatch` are the two
failure cases of `getter.Close` after the sticky check, and `other` stands
for any further error value (e.g. one stored in the sticky field). -/
inductive GoErr where
  | eof
  | einval
  | tooMany
  | noChunks
  | chunkErr
  | shortRead
  | md5Mismatch
  | other (msg : String)
deriving DecidableEq, Repr

/-- The mutable state of a `getter` as consulted by `Read` and `Close`:
`contentLen`, `bytesRead`, `chunkID` (next id the reader needs),
`chunkTotal`, the held chunk `rChunk` (by its `size`), the intra-chunk
cursor `cIdx`, the `closed` flag, the sticky error `g.err`, and
`g.c.Md5Check`. -/
structure GetSt where
  contentLen : Int
  bytesRead : Int
  chunkID : Nat
  chunkTotal : Nat
  rChunkSize : Option Int
  cIdx : Int
  closed : Bool
  gerr : Option GoErr
  md5Check : Bool
deriving DecidableEq, Repr

/-- The loop body of `getter.Read` (the `for nw < len(p)` loop).  `supply`
abstracts `getter.nextChunk`: it yields the size of the chunk with the given
id as placed in `qWait` by a worker (`none` models `nextChunk` returning the
fatal error after `quit` closes).  Each iteration mirrors the source: the
EOF check, the over-read check, the exhausted-chunk-counter check, chunk
acquisition (resetting `cIdx`), the `copy` of
`min (len(p)-nw) (rChunk.size-cIdx)` bytes, and chunk release with
`chunkID++` when `cIdx` reaches the chunk size. -/
def readGo (supply : Nat → Option Int) (g : GetSt) (plen nw : Nat) :
    GetSt × Nat × Option GoErr :=
  if _hnw : nw < plen then
    if g.bytesRead = g.contentLen then (g, nw, some .eof)
    else if g.contentLen < g.bytesRead then (g, nw, some .tooMany)
    else if _hid : g.chunkTotal ≤ g.chunkID then (g, nw, some .noChunks)
    else
      let acq : Option (Int × Int) :=
        match g.rChunkSize with
        | some sz => some (sz, g.cIdx)
        | none => (supply g.chunkID).map (fun sz => (sz, (0 : Int)))
      match acq with
      | none => (g, 0, some .chunkErr)
      | some (sz, cIdx0) =>
        let avail : Nat := (sz - cIdx0).toNat
        if avail ≤ plen - nw then
          readGo supply
            { g with rChunkSize := none, cIdx := cIdx0 + avail,
                     bytesRead := g.bytesRead + avail, chunkID := g.chunkID + 1 }
            plen (nw + avail)
        else
          readGo supply
            { g with rChunkSize := some sz, cIdx := cIdx0 + (plen - nw),
                     bytesRead := g.bytesRead + (plen - nw) }
            plen (nw + (plen - nw))
  else (g, nw, none)
termination_by (plen - nw) + (g.chunkTotal - g.chunkID)
decreasing_by
  · omega
  · omega

/-- Model of `getter.Read`: the closed check, the sticky-error check, then the copy
loop.  Returns the updated state, the count `nw` of bytes delivered, and the
returned error value (if any). -/
def getterRead (supply : Nat → Option Int) (g : GetSt) (plen : Nat) :
    GetSt × Nat × Option GoErr :=
  if g.closed then (g, 0, some .einval)
  else
    match g.gerr with
    | some e => (g, 0, some e)
    | none => readGo supply g plen 0

/-- Model of `getter.Close`: the closed check, setting `closed`, then — in this
order — the sticky error, the `bytesRead != contentLen` short-read check,
and the MD5 sidecar verification.  `md5ok` abstracts the outcome of
`g.checkMd5()` (an HTTP fetch plus comparison). -/
def getterClose (g : GetSt) (md5ok : Bool) : GetSt × Option GoErr :=
  if g.closed then (g, some .einval)
  else
    let g1 := { g with closed := true }
    match g.gerr with
    | some e => (g1, some e)
    | none =>
      if g.bytesRead ≠ g.contentLen then (g1, some .shortRead)
      else if g.md5Check && !md5ok then (g1, some .md5Mismatch)
      else (g1, none)

/-- Any result of the `Read` loop preserves `contentLen`, and the loop
returns `io.EOF` only from the `g.bytesRead == g.contentLen` branch, so an
`EOF` result implies the delivered-byte counter equals the content length. -/
theorem readGo_eof_aux (N : Nat) : ∀ (supply : Nat → Option Int) (g : GetSt) (plen nw : Nat),
    (plen - nw) + (g.chunkTotal - g.chunkID) ≤ N →
    ∀ g' n e, readGo supply g plen nw = (g', n, e) →
      g'.contentLen = g.contentLen ∧ (e = some GoErr.eof → g'.bytesRead = g'.contentLen) := by
  induction N with
  | zero =>
    intro supply g plen nw hm g' n e h
    rw [readGo, dif_neg (by omega)] at h
    simp only [Prod.mk.injEq] at h
    obtain ⟨rfl, rfl, rfl⟩ := h
    exact ⟨rfl, fun he => by simp at he⟩
  | succ N ih =>
    intro supply g plen nw hm g' n e h
    rw [readGo] at h
    split at h
    case isFalse =>
      simp only [Prod.mk.injEq] at h
      obtain ⟨rfl, rfl, rfl⟩ := h
      exact ⟨rfl, fun he => by simp at he⟩
    case isTrue hnw =>
      split at h
      case isTrue hb =>
        simp only [Prod.mk.injEq] at h
        obtain ⟨rfl, rfl, rfl⟩ := h
        exact ⟨rfl, fun _ => hb⟩
      case isFalse hb =>
        split at h
        case isTrue hover =>
          simp only [Prod.mk.injEq] at h
          obtain ⟨rfl, rfl, rfl⟩ := h
          exact ⟨rfl, fun he => by simp at he⟩
        case isFalse hover =>
          split at h
          case isTrue hid =>
            simp only [Prod.mk.injEq] at h
            obtain ⟨rfl, rfl, rfl⟩ := h
            exact ⟨rfl, fun he => by simp at he⟩
          case isFalse hid =>
            dsimp only at h
            split at h
            case h_1 =>
              simp only [Prod.mk.injEq] at h
              obtain ⟨rfl, rfl, rfl⟩ := h
              exact ⟨rfl, fun he => by simp at he⟩
            case h_2 sz cIdx0 hacq =>
              split at h
              case isTrue havail =>
                have := ih supply _ plen _ (by dsimp only; omega) g' n e h
                dsimp only at this
                exact this
              case isFalse havail =>
                have := ih supply _ plen _ (by dsimp only; omega) g' n e h
                dsimp only at this
                exact this

/-- Claim C1 (amended): on a non-closed, non-errored getter, a `Read` with a
*non-empty* destination buffer issued when exactly `contentLen` bytes have
been delivered returns `io.EOF` (with no further bytes); and as long as the
sticky error is unset, any `Read` that returns `io.EOF` does so with the
cumulative delivered-byte counter equal to `contentLen`.  (The amendment:
the claim's "every Read" must exclude zero-length destination buffers,
see `c1_empty_read_counterexample`.) -/
theorem c1_read_eof_iff (supply : Nat → Option Int) (g : GetSt) (plen : Nat) :
    (g.closed = false → g.gerr = none → g.bytesRead = g.contentLen → 0 < plen →
      getterRead supply g plen = (g, 0, some GoErr.eof))
    ∧ (g.gerr = none → ∀ g' n, getterRead supply g plen = (g', n, some GoErr.eof) →
        g'.bytesRead = g.contentLen) := by
  constructor
  · intro hcl hge hb hp
    rw [getterRead]
    simp only [hcl, hge, Bool.false_eq_true, if_false]
    rw [readGo, dif_pos hp, if_pos hb]
  · intro hge g' n h
    rw [getterRead] at h
    split at h
    · simp at h
    · split at h
      case h_1 e heq => rw [hge] at heq; cases heq
      case h_2 =>
        obtain ⟨hc, hb⟩ := readGo_eof_aux ((plen - 0) + (g.chunkTotal - g.chunkID))
          supply g plen 0 le_rfl g' n _ h
        exact (hb rfl).trans hc

/-- A concrete getter state that has delivered all `contentLen = 2` bytes:
non-closed, non-errored, cursor past the single chunk. -/
def gEx : GetSt :=
  { contentLen := 2, bytesRead := 2, chunkID := 1, chunkTotal := 1,
    rChunkSize := none, cIdx := 2, closed := false, gerr := none, md5Check := true }

/-- A chunk supply handing out the single size-2 chunk of `gEx`. -/
def supplyEx : Nat → Option Int := fun _ => some 2

/-- Claim C1, counterexample to the claim as stated: a `Read` with an empty
destination buffer (`len(p) = 0`) issued after exactly `contentLen` bytes
have been delivered returns `(0, nil)`, not `io.EOF`: the `for nw < len(p)`
loop never runs, so the claim's "every Read issued after exactly L bytes
have been delivered returns EOF" fails at this input. -/
theorem c1_empty_read_counterexample :
    getterRead supplyEx gEx 0 = (gEx, 0, none)
    ∧ gEx.closed = false ∧ gEx.gerr = none ∧ gEx.bytesRead = gEx.contentLen := by
  refine ⟨?_, rfl, rfl, rfl⟩
  rw [getterRead]
  simp only [gEx, Bool.false_eq_true, if_false]
  rw [readGo, dif_neg (by omega)]

/-- Witness for `c1_read_eof_iff` at the concrete state `gEx`. -/
theorem c1_read_eof_iff_witness :
    getterRead supplyEx gEx 4 = (gEx, 0, some GoErr.eof)
    ∧ gEx.bytesRead = gEx.contentLen :=
  ⟨(c1_read_eof_iff supplyEx gEx 4).1 rfl rfl rfl (by decide),
   (c1_read_eof_iff supplyEx gEx 4).2 rfl gEx 0
     ((c1_read_eof_iff supplyEx gEx 4).1 rfl rfl rfl (by decide))⟩

/-- Claim C3: with the sticky error field set (`g.err = e ≠ nil`) on a getter
that is not closed, `Read` returns `e` unchanged (with no bytes), and
`Close` returns `e` unchanged regardless of the short-read comparison and
the MD5 verification outcome. -/
theorem c3_sticky_error (supply : Nat → Option Int) (g : GetSt) (plen : Nat)
    (e : GoErr) (md5ok : Bool) (hcl : g.closed = false) (hge : g.gerr = some e) :
    getterRead supply g plen = (g, 0, some e)
    ∧ (getterClose g md5ok).2 = some e := by
  constructor
  · rw [getterRead]
    simp only [hcl, hge, Bool.false_eq_true, if_false]
  · rw [getterClose]
    simp only [hcl, hge, Bool.false_eq_true, if_false]

/-- Witness for `c3_sticky_error`: the repository's own test scenario, a
getter whose sticky field holds a test error. -/
def gErrEx : GetSt := { gEx with bytesRead := 0, gerr := some (.other "test error") }

theorem c3_sticky_error_witness :
    getterRead supplyEx gErrEx 3 = (gErrEx, 0, some (GoErr.other "test error"))
    ∧ (getterClose gErrEx true).2 = some (GoErr.other "test error") :=
  c3_sticky_error supplyEx gErrEx 3 (.other "test error") true rfl rfl

/-- After a first `Close` on a non-closed getter, the `closed` flag is set,
whatever branch produced the close result. -/
theorem getterClose_fst (g : GetSt) (md5ok : Bool) (hcl : g.closed = false) :
    (getterClose g md5ok).1 = { g with closed := true } := by
  rw [getterClose]
  simp only [hcl, Bool.false_eq_true, if_false]
  split
  · rfl
  · split
    · rfl
    · split <;> rfl

/-- Claim C4: once `Close()` has returned on a getter, every later `Read`
returns `syscall.EINVAL` with zero bytes delivered and a second `Close()`
returns `syscall.EINVAL`, independently of the sticky error held before the
close or stored afterwards. -/
theorem c4_closed_einval (supply : Nat → Option Int) (g : GetSt) (plen : Nat)
    (md5a md5b : Bool) (e' : GoErr) (hcl : g.closed = false) :
    (getterClose g md5a).1.closed = true
    ∧ getterRead supply (getterClose g md5a).1 plen
        = ((getterClose g md5a).1, 0, some GoErr.einval)
    ∧ (getterClose (getterClose g md5a).1 md5b).2 = some GoErr.einval
    ∧ getterRead supply { (getterClose g md5a).1 with gerr := some e' } plen
        = ({ (getterClose g md5a).1 with gerr := some e' }, 0, some GoErr.einval)
    ∧ (getterClose { (getterClose g md5a).1 with gerr := some e' } md5b).2
        = some GoErr.einval := by
  rw [getterClose_fst g md5a hcl]
  refine ⟨rfl, ?_, ?_, ?_, ?_⟩
  · rw [getterRead]; rfl
  · rw [getterClose]; rfl
  · rw [getterRead]; rfl
  · rw [getterClose]; rfl

/-- Witness for `c4_closed_einval` at the concrete state `gEx`. -/
theorem c4_closed_einval_witness :
    (getterClose gEx true).1.closed = true
    ∧ getterRead supplyEx (getterClose gEx true).1 3
        = ((getterClose gEx true).1, 0, some GoErr.einval)
    ∧ (getterClose (getterClose gEx true).1 false).2 = some GoErr.einval
    ∧ getterRead supplyEx { (getterClose gEx true).1 with gerr := some GoErr.eof } 3
        = ({ (getterClose gEx true).1 with gerr := some GoErr.eof }, 0, some GoErr.einval)
    ∧ (getterClose { (getterClose gEx true).1 with gerr := some GoErr.eof } false).2
        = some GoErr.einval :=
  c4_closed_einval supplyEx gEx 3 true false GoErr.eof rfl

/-! Section: chunk layout (`newGetter`, `getter.initChunks`)

`newGetter` computes `g.chunkTotal = int((g.contentLen + g.bufsz - 1) / g.bufsz)`
(with `g.bufsz = max64(c.PartSize, 1)`, so the divisor is positive and Go's
truncated division agrees with `Int` division) and `initChunks` walks
`i = 0, i += size` enumerating chunks with
`size = min64(g.bufsz, g.contentLen - i)`, ids `0, 1, 2, ...` and a
`Range: bytes=i-(i+size-1)` header. -/

/-- One chunk as built by `initChunks`: its `id`, `start`, `size`, and the
value of its `Range` header (`fmt.Sprintf("bytes=%d-%d", i, i+size-1)`). -/
structure GChunk where
  id : Nat
  start : Int
  size : Int
  header : String
deriving DecidableEq, Repr

/-- The `Range` header value `fmt.Sprintf("bytes=%d-%d", i, i+size-1)`. -/
def rangeHeader (i size : Int) : String :=
  "bytes=" ++ toString i ++ "-" ++ toString (i + size - 1)

/-- Value of `g.chunkTotal` as computed in `newGetter`. -/
def chunkTotalOf (contentLen bufsz : Int) : Int := (contentLen + bufsz - 1) / bufsz

/-- Model of `getter.initChunks`: the chunks dispatched on `g.getCh`, in order.  The
loop advances `i` by `size = min64(g.bufsz, g.contentLen-i)`; `newGetter`
guarantees `1 ≤ g.bufsz` (`max64(c.PartSize, 1)`), carried here as the
hypothesis `hb` that makes the loop terminate. -/
def initChunks (contentLen bufsz : Int) (hb : 1 ≤ bufsz) (i : Int) (id : Nat) :
    List GChunk :=
  if h : i < contentLen then
    let size := min bufsz (contentLen - i)
    { id := id, start := i, size := size, header := rangeHeader i size } ::
      initChunks contentLen bufsz hb (i + size) (id + 1)
  else []
termination_by (contentLen - i).toNat
decreasing_by
  omega

theorem initChunks_cons (L P : Int) (hP : 1 ≤ P) (i : Int) (id : Nat) (h : i < L) :
    initChunks L P hP i id =
      { id := id, start := i, size := min P (L - i),
        header := rangeHeader i (min P (L - i)) } ::
        initChunks L P hP (i + min P (L - i)) (id + 1) := by
  rw [initChunks]
  simp only [dif_pos h]

theorem initChunks_nil (L P : Int) (hP : 1 ≤ P) (i : Int) (id : Nat) (h : ¬ i < L) :
    initChunks L P hP i id = [] := by
  rw [initChunks]
  simp only [dif_neg h]

theorem int_add_self_ediv (a b : Int) (h : 0 < b) : (a + b) / b = a / b + 1 := by
  have := Int.add_mul_ediv_right a 1 (by omega : b ≠ 0)
  simpa using this

theorem int_ediv_nonpos_of_le (a b : Int) (hb : 0 < b) (h : a ≤ b - 1) : a / b ≤ 0 := by
  rcases le_or_lt 0 a with h0 | h0
  · exact le_of_eq (Int.ediv_eq_zero_of_lt h0 (by omega))
  · calc a / b ≤ 0 / b := Int.ediv_le_ediv hb (le_of_lt h0)
    _ = 0 := Int.zero_ediv b

theorem initChunks_spec_base (L P : Int) (hP : 1 ≤ P) (i : Int) (id : Nat)
    (h : ¬ i < L) :
    (initChunks L P hP i id).length = ((L - i + P - 1) / P).toNat
    ∧ ∀ k (hk : k < (initChunks L P hP i id).length),
        (initChunks L P hP i id).get ⟨k, hk⟩ =
          { id := id + k, start := i + k * P,
            size := min P (L - (i + k * P)),
            header := rangeHeader (i + k * P) (min P (L - (i + k * P))) } := by
  rw [initChunks_nil L P hP i id h]
  constructor
  · have h0 := int_ediv_nonpos_of_le (L - i + P - 1) P (by omega) (by omega)
    simp
    omega
  · intro k hk
    simp at hk

/-- Shape of the chunk list produced by `initChunks` from position `i` with
id counter `id`: its length is the remaining chunk count (written with the
same `(x + P - 1) / P` rounding formula that `newGetter` uses), and its
`k`-th element is the chunk with id `id + k`, start `i + k·P`, size
`min P (L - (i + k·P))` and the corresponding `Range` header. -/
theorem initChunks_spec (L P : Int) (hP : 1 ≤ P) :
    ∀ (n : Nat) (i : Int) (id : Nat), (L - i).toNat ≤ n →
      (initChunks L P hP i id).length = ((L - i + P - 1) / P).toNat
      ∧ ∀ k (hk : k < (initChunks L P hP i id).length),
          (initChunks L P hP i id).get ⟨k, hk⟩ =
            { id := id + k, start := i + k * P,
              size := min P (L - (i + k * P)),
              header := rangeHeader (i + k * P) (min P (L - (i + k * P))) } := by
  intro n
  induction n with
  | zero =>
    intro i id hm
    exact initChunks_spec_base L P hP i id (by omega)
  | succ n ih =>
    intro i id hm
    by_cases hi : i < L
    · rw [initChunks_cons L P hP i id hi]
      obtain ⟨ihlen, ihget⟩ := ih (i + min P (L - i)) (id + 1) (by omega)
      constructor
      · rw [List.length_cons, ihlen]
        rcases le_or_lt P (L - i) with hc | hc
        · have hmin : min P (L - i) = P := by omega
          rw [hmin]
          have harg : L - (i + P) + P - 1 + P = L - i + P - 1 := by ring
          have hstep := int_add_self_ediv (L - (i + P) + P - 1) P (by omega)
          rw [harg] at hstep
          have hnn : 0 ≤ (L - (i + P) + P - 1) / P :=
            Int.ediv_nonneg (by omega) (by omega)
          omega
        · have hmin : min P (L - i) = L - i := by omega
          rw [hmin]
          have h0 : (L - (i + (L - i)) + P - 1) / P = 0 :=
            Int.ediv_eq_zero_of_lt (by omega) (by omega)
          have harg : L - i + P - 1 = (L - i - 1) + P := by ring
          have hstep := int_add_self_ediv (L - i - 1) P (by omega)
          have h1 : (L - i - 1) / P = 0 := Int.ediv_eq_zero_of_lt (by omega) (by omega)
          rw [h0, harg, hstep, h1]
          simp
      · intro k hk
        cases k with
        | zero => simp
        | succ k =>
          have hk' : k < (initChunks L P hP (i + min P (L - i)) (id + 1)).length := by
            simpa using hk
          have hP_eq : min P (L - i) = P := by
            by_contra hne
            have hnil : ¬ i + min P (L - i) < L := by omega
            rw [initChunks_nil L P hP _ _ hnil] at hk'
            simp at hk'
          simp only [List.get_cons_succ]
          rw [ihget k hk']
          simp only [GChunk.mk.injEq]
          push_cast
          refine ⟨by omega, by rw [hP_eq]; ring, ?_, ?_⟩
          · congr 1
            rw [hP_eq]; ring
          · congr 1
            · rw [hP_eq]; ring
            · congr 1
              rw [hP_eq]; ring
    · exact initChunks_spec_base L P hP i id hi

/-- Fact: `chunkTotalOf` is the ceiling of `contentLen / bufsz`: characterized by
`(T-1)·P < L ≤ T·P`. -/
theorem chunkTotalOf_ceil (L P : Int) (hP : 1 ≤ P) :
    L ≤ chunkTotalOf L P * P ∧ (chunkTotalOf L P - 1) * P < L := by
  have hid := Int.ediv_add_emod (L + P - 1) P
  have hr0 : 0 ≤ (L + P - 1) % P := Int.emod_nonneg _ (by omega)
  have hrP : (L + P - 1) % P < P := Int.emod_lt_of_pos _ (by omega)
  rw [chunkTotalOf]
  constructor
  · nlinarith [hid, hr0, hrP]
  · nlinarith [hid, hr0, hrP]

/-- Claim C2: for `contentLen = L ≥ 1` and `bufsz = P ≥ 1` the getter's chunk
plan is exactly the claim's: `chunkTotal` is `⌈L/P⌉` (characterized by
`(T-1)·P < L ≤ T·P`); the dispatched list has `chunkTotal` chunks, the
`k`-th carrying id `k`, start `k·P`, size `min P (L - k·P)` and range header
`bytes=start-(start+size-1)`; every chunk is non-empty, and chunk `k` ends at
`min ((k+1)·P) L` — so consecutive chunks are contiguous (the end of chunk
`k` is the start of chunk `k+1` while below `L`), pairwise disjoint, and
together cover exactly `[0, L)`. -/
theorem c2_chunk_layout (L P : Int) (hL : 1 ≤ L) (hP : 1 ≤ P) :
    (initChunks L P hP 0 0).length = (chunkTotalOf L P).toNat
    ∧ (L ≤ chunkTotalOf L P * P ∧ (chunkTotalOf L P - 1) * P < L)
    ∧ (∀ k (hk : k < (initChunks L P hP 0 0).length),
        (initChunks L P hP 0 0).get ⟨k, hk⟩ =
          { id := k, start := k * P, size := min P (L - k * P),
            header := rangeHeader (k * P) (min P (L - k * P)) })
    ∧ (∀ k, k < (initChunks L P hP 0 0).length → 0 < min P (L - k * P))
    ∧ (∀ k, k < (initChunks L P hP 0 0).length →
        (k : Int) * P + min P (L - k * P) = min (((k : Int) + 1) * P) L) := by
  obtain ⟨hlen, hget⟩ := initChunks_spec L P hP (L - 0).toNat 0 0 le_rfl
  obtain ⟨hceil1, hceil2⟩ := chunkTotalOf_ceil L P hP
  have hlen' : (initChunks L P hP 0 0).length = (chunkTotalOf L P).toNat := by
    rw [hlen, chunkTotalOf]
    norm_num
  have hkP : ∀ k : Nat, k < (initChunks L P hP 0 0).length → (k : Int) * P < L := by
    intro k hk
    rw [hlen'] at hk
    have hT : 0 ≤ chunkTotalOf L P := by
      rw [chunkTotalOf]
      exact Int.ediv_nonneg (by omega) (by omega)
    have hkT : (k : Int) ≤ chunkTotalOf L P - 1 := by omega
    have := mul_le_mul_of_nonneg_right hkT (by omega : (0:Int) ≤ P)
    linarith
  refine ⟨hlen', ⟨hceil1, hceil2⟩, ?_, ?_, ?_⟩
  · intro k hk
    have := hget k hk
    simpa using this
  · intro k hk
    have := hkP k hk
    omega
  · intro k hk
    have := hkP k hk
    rcases le_or_lt P (L - (k : Int) * P) with hc | hc
    · rw [min_eq_left hc, min_eq_left (by linarith)]
      ring
    · rw [min_eq_right (le_of_lt hc), min_eq_right (by linarith)]
      ring

/-- Witness for `c2_chunk_layout` at `L = 5`, `P = 2` (chunks
`[0,2) [2,4) [4,5)`). -/
theorem c2_chunk_layout_witness :
    (1 ≤ (5 : Int) ∧ 1 ≤ (2 : Int))
    ∧ ((initChunks 5 2 (by decide) 0 0).length = (chunkTotalOf 5 2).toNat
      ∧ ((5 : Int) ≤ chunkTotalOf 5 2 * 2 ∧ (chunkTotalOf 5 2 - 1) * 2 < 5)
      ∧ (∀ k (hk : k < (initChunks 5 2 (by decide) 0 0).length),
          (initChunks 5 2 (by decide) 0 0).get ⟨k, hk⟩ =
            { id := k, start := k * 2, size := min 2 (5 - k * 2),
              header := rangeHeader (k * 2) (min 2 (5 - k * 2)) })
      ∧ (∀ k, k < (initChunks 5 2 (by decide) 0 0).length → 0 < min 2 ((5 : Int) - k * 2))
      ∧ (∀ k, k < (initChunks 5 2 (by decide) 0 0).length →
          (k : Int) * 2 + min 2 ((5 : Int) - k * 2) = min (((k : Int) + 1) * 2) 5)) :=
  ⟨⟨by decide, by decide⟩, c2_chunk_layout 5 2 (by decide) (by decide)⟩

/-! Section: qWait backpressure (`qWaitMax`, `getter.getChunk`, `getter.worker`, `getter.nextChunk`)

A labelled transition system over the states of the getter pipeline while a
transfer is in progress (the `closed`/`quit` teardown is outside this
claim's scope).  One transition corresponds to one atomic step of the
source, at the granularity of the locks and channel rendezvous involved:

* `dispatch`: a worker's `for c := range g.getCh` receives the next chunk
  from `initChunks` (ids are handed out in increasing order);
* `fetched`: the worker's HTTP fetch and `io.ReadAtLeast` complete;
* `handoff`: the rendezvous `g.readCh <- c` with the reader's
  `select`-receive in `nextChunk` (which the reader only reaches when the
  chunk it needs is not in `qWait` and it holds no chunk); after it the
  worker is at the `for g.qWaitLen >= qWaitMax` gate, and the received
  chunk is in the reader's hands (`pending`) but not yet counted;
* `enqueue`: the reader's `g.qWait[c.id] = c` / `g.qWaitLen++` (under
  `cond.L`), a separate step because the worker may reach its gate before
  the reader performs the increment;
* `gatePass` / `gatePark` / `unpark`: the worker's
  `for g.qWaitLen >= qWaitMax { g.cond.Wait() }` loop (under `cond.L`);
* `pop`: the reader removes `qWait[chunkID]` and decrements `qWaitLen`
  (signalling the condition variable);
* `consume`: `getter.Read` finishes copying the held chunk out and
  advances `chunkID`. -/

/-- Constant `qWaitMax = 2` from the getter source. -/
def qWaitMax : Nat := 2

/-- The phase a worker goroutine is in. -/
inductive WSt where
  | idle
  | fetching (id : Nat)
  | sending (id : Nat)
  | atGate
  | parked
deriving DecidableEq, Repr

/-- A state of the pipeline: the workers, the dispatcher position, the
reassembly queue `qWait` with its counter `qWaitLen` (tracked separately,
as in the source), a chunk received by the reader but not yet counted
(`pending`), and the reader's position. -/
structure PipeSt where
  workers : List WSt
  nextDispatch : Nat
  qWait : List Nat
  qWaitLen : Nat
  pending : Option Nat
  readerId : Nat
  readerHolding : Bool
deriving DecidableEq, Repr

/-- Initial state: `concurrency` idle workers, nothing dispatched. -/
def pipeInit (conc : Nat) : PipeSt :=
  { workers := List.replicate conc .idle, nextDispatch := 0, qWait := [],
    qWaitLen := 0, pending := none, readerId := 0, readerHolding := false }

/-- One scheduler step of the pipeline (see the section comment for the
source line each constructor embeds). -/
inductive PipeStep (chunkTotal : Nat) : PipeSt → PipeSt → Prop where
  | dispatch (s : PipeSt) (w : Nat)
      (hw : s.workers[w]? = some .idle) (hd : s.nextDispatch < chunkTotal) :
      PipeStep chunkTotal s
        { s with workers := s.workers.set w (.fetching s.nextDispatch),
                 nextDispatch := s.nextDispatch + 1 }
  | fetched (s : PipeSt) (w id : Nat)
      (hw : s.workers[w]? = some (.fetching id)) :
      PipeStep chunkTotal s { s with workers := s.workers.set w (.sending id) }
  | handoff (s : PipeSt) (w id : Nat)
      (hw : s.workers[w]? = some (.sending id))
      (hr : s.readerHolding = false) (hp : s.pending = none)
      (hq : s.readerId ∉ s.qWait) :
      PipeStep chunkTotal s
        { s with workers := s.workers.set w .atGate, pending := some id }
  | enqueue (s : PipeSt) (id : Nat) (hp : s.pending = some id) :
      PipeStep chunkTotal s
        { s with pending := none, qWait := id :: s.qWait,
                 qWaitLen := s.qWaitLen + 1 }
  | gatePass (s : PipeSt) (w : Nat)
      (hw : s.workers[w]? = some .atGate) (hq : s.qWaitLen < qWaitMax) :
      PipeStep chunkTotal s { s with workers := s.workers.set w .idle }
  | gatePark (s : PipeSt) (w : Nat)
      (hw : s.workers[w]? = some .atGate) (hq : qWaitMax ≤ s.qWaitLen) :
      PipeStep chunkTotal s { s with workers := s.workers.set w .parked }
  | unpark (s : PipeSt) (w : Nat)
      (hw : s.workers[w]? = some .parked) (hq : s.qWaitLen < qWaitMax) :
      PipeStep chunkTotal s { s with workers := s.workers.set w .idle }
  | pop (s : PipeSt)
      (hr : s.readerHolding = false) (hp : s.pending = none)
      (hq : s.readerId ∈ s.qWait) :
      PipeStep chunkTotal s
        { s with qWait := s.qWait.erase s.readerId,
                 qWaitLen := s.qWaitLen - 1, readerHolding := true }
  | consume (s : PipeSt) (hr : s.readerHolding = true) :
      PipeStep chunkTotal s { s with readerHolding := false, readerId := s.readerId + 1 }

/-- States reachable from the freshly started pipeline. -/
def PipeReachable (conc chunkTotal : Nat) (s : PipeSt) : Prop :=
  Relation.ReflTransGen (PipeStep chunkTotal) (pipeInit conc) s

/-- A worker in these phases may still contribute a chunk to `qWait`
without first observing `qWaitLen < qWaitMax` at its gate. -/
def inPipe : WSt → Bool
  | .idle => true
  | .fetching _ => true
  | .sending _ => true
  | .atGate => false
  | .parked => false

/-- Count (0 or 1) for the reader's uncounted received chunk. -/
def pendingCount (p : Option Nat) : Nat :=
  match p with
  | none => 0
  | some _ => 1

/-- The inductive quantity bounding the queue: queued chunks, plus the
reader's uncounted chunk, plus workers that may still publish one before
being gated. -/
def pipeLoad (s : PipeSt) : Nat :=
  s.qWaitLen + pendingCount s.pending + s.workers.countP inPipe

theorem countP_set (p : WSt → Bool) :
    ∀ (l : List WSt) (i : Nat) (v a : WSt), l[i]? = some a →
      (l.set i v).countP p + (if p a then 1 else 0)
        = l.countP p + (if p v then 1 else 0) := by
  intro l
  induction l with
  | nil => intro i v a h; simp at h
  | cons x xs ih =>
    intro i v a h
    cases i with
    | zero =>
      simp at h
      subst h
      simp [List.countP_cons]
      omega
    | succ i =>
      simp at h
      have := ih i v a h
      simp [List.countP_cons]
      omega

theorem pipeStep_inv (T conc : Nat) (s s' : PipeSt) (h : PipeStep T s s')
    (hlen : s.workers.length = conc) (hload : pipeLoad s ≤ conc + 2) :
    s'.workers.length = conc ∧ pipeLoad s' ≤ conc + 2 := by
  have hpc : pendingCount s.pending ≤ 1 := by
    cases hp : s.pending <;> simp [pendingCount]
  cases h with
  | dispatch w hw hd =>
    have hc := countP_set inPipe s.workers w (.fetching s.nextDispatch) .idle hw
    simp [inPipe] at hc
    refine ⟨by simp [List.length_set, hlen], ?_⟩
    simp only [pipeLoad] at *
    omega
  | fetched w id hw =>
    have hc := countP_set inPipe s.workers w (.sending id) (.fetching id) hw
    simp [inPipe] at hc
    refine ⟨by simp [List.length_set, hlen], ?_⟩
    simp only [pipeLoad] at *
    omega
  | handoff w id hw hr hp hq =>
    have hc := countP_set inPipe s.workers w .atGate (.sending id) hw
    simp [inPipe] at hc
    refine ⟨by simp [List.length_set, hlen], ?_⟩
    simp only [pipeLoad, hp, pendingCount] at *
    omega
  | enqueue id hp =>
    refine ⟨hlen, ?_⟩
    simp only [pipeLoad, hp, pendingCount] at *
    omega
  | gatePass w hw hq =>
    have hc := countP_set inPipe s.workers w .idle .atGate hw
    simp [inPipe] at hc
    have hcl : (s.workers.set w WSt.idle).countP inPipe ≤ conc := by
      rw [← hlen, ← List.length_set s.workers w WSt.idle]
      exact List.countP_le_length inPipe
    refine ⟨by simp [List.length_set, hlen], ?_⟩
    simp only [pipeLoad, qWaitMax] at *
    omega
  | gatePark w hw hq =>
    have hc := countP_set inPipe s.workers w .parked .atGate hw
    simp [inPipe] at hc
    refine ⟨by simp [List.length_set, hlen], ?_⟩
    simp only [pipeLoad] at *
    omega
  | unpark w hw hq =>
    have hc := countP_set inPipe s.workers w .idle .parked hw
    simp [inPipe] at hc
    have hcl : (s.workers.set w WSt.idle).countP inPipe ≤ conc := by
      rw [← hlen, ← List.length_set s.workers w WSt.idle]
      exact List.countP_le_length inPipe
    refine ⟨by simp [List.length_set, hlen], ?_⟩
    simp only [pipeLoad, qWaitMax] at *
    omega
  | pop hr hp hq =>
    refine ⟨hlen, ?_⟩
    simp only [pipeLoad] at *
    omega
  | consume hr =>
    refine ⟨hlen, ?_⟩
    simp only [pipeLoad] at *
    omega

theorem pipeReachable_inv (conc T : Nat) (s : PipeSt) (h : PipeReachable conc T s) :
    s.workers.length = conc ∧ pipeLoad s ≤ conc + 2 := by
  induction h with
  | refl =>
    constructor
    · simp [pipeInit]
    · simp [pipeLoad, pipeInit, pendingCount, List.countP_replicate, inPipe]
  | tail hab hbc ih =>
    exact pipeStep_inv T conc _ _ hbc ih.1 ih.2

/-- Claim C5 (amended): in every reachable state of the getter pipeline the
reassembly queue holds at most `qWaitMax + concurrency` completed-but-unread
chunks (`qWaitLen` is *not* bounded by `qWaitMax` alone, see
`c5_qwait_counterexample`); and the gate itself is strict: a worker at the
post-publish gate or parked on the condition variable becomes idle (free to
take its next dispatched chunk) only when it observes
`qWaitLen < qWaitMax`. -/
theorem c5_qwait_bound :
    (∀ conc T s, PipeReachable conc T s → s.qWaitLen ≤ qWaitMax + conc)
    ∧ (∀ T (s s' : PipeSt) (w : Nat), PipeStep T s s' →
        (s.workers[w]? = some .atGate ∨ s.workers[w]? = some .parked) →
        s'.workers[w]? = some .idle → s.qWaitLen < qWaitMax) := by
  constructor
  · intro conc T s h
    have := (pipeReachable_inv conc T s h).2
    simp only [pipeLoad, qWaitMax] at *
    omega
  · intro T s s' w hstep hgate hidle
    cases hstep with
    | dispatch v hv hd =>
      by_cases hvw : v = w
      · rw [hvw] at hv
        rw [hv] at hgate
        rcases hgate with hgate | hgate <;> cases hgate
      · rw [List.getElem?_set_ne hvw] at hidle
        rw [hidle] at hgate
        rcases hgate with hgate | hgate <;> cases hgate
    | fetched v id hv =>
      by_cases hvw : v = w
      · rw [hvw] at hv
        rw [hv] at hgate
        rcases hgate with hgate | hgate <;> cases hgate
      · rw [List.getElem?_set_ne hvw] at hidle
        rw [hidle] at hgate
        rcases hgate with hgate | hgate <;> cases hgate
    | handoff v id hv hr hp hq =>
      by_cases hvw : v = w
      · rw [hvw] at hv
        rw [hv] at hgate
        rcases hgate with hgate | hgate <;> cases hgate
      · rw [List.getElem?_set_ne hvw] at hidle
        rw [hidle] at hgate
        rcases hgate with hgate | hgate <;> cases hgate
    | enqueue id hp =>
      rw [hidle] at hgate
      rcases hgate with hgate | hgate <;> cases hgate
    | gatePass v hv hq =>
      exact hq
    | gatePark v hv hq =>
      by_cases hvw : v = w
      · rw [hvw] at hv
        have hlt : w < s.workers.length := by
          by_contra hge
          rw [List.getElem?_eq_none (by omega)] at hv
          cases hv
        rw [hvw, List.getElem?_set_self hlt] at hidle
        cases hidle
      · rw [List.getElem?_set_ne hvw] at hidle
        rw [hidle] at hgate
        rcases hgate with hgate | hgate <;> cases hgate
    | unpark v hv hq =>
      exact hq
    | pop hr hp hq =>
      rw [hidle] at hgate
      rcases hgate with hgate | hgate <;> cases hgate
    | consume hr =>
      rw [hidle] at hgate
      rcases hgate with hgate | hgate <;> cases hgate

/-- Claim C5, counterexample to the claim as stated: with `concurrency = 2`
and `chunkTotal = 3` chunks, the pipeline reaches a state in which `qWait`
holds `3 > qWaitMax = 2` completed-but-unread chunks: worker 1 fetches and
publishes chunks 1 and 2 (passing its gate after the first because
`qWaitLen = 1 < 2` at that moment), then parks; meanwhile the reader,
blocked waiting for chunk 0, must still receive from `readCh`, so when
worker 0 finally publishes chunk 0 the queue length reaches 3. -/
def c5FinalSt : PipeSt :=
  { workers := [.atGate, .parked], nextDispatch := 3, qWait := [0, 2, 1],
    qWaitLen := 3, pending := none, readerId := 0, readerHolding := false }

theorem c5_qwait_counterexample :
    ∃ s, PipeReachable 2 3 s ∧ qWaitMax < s.qWaitLen := by
  refine ⟨c5FinalSt, ?_, by decide⟩
  exact (Relation.ReflTransGen.refl
    |>.tail (PipeStep.dispatch _ 0 (by decide) (by decide))
    |>.tail (PipeStep.dispatch _ 1 (by decide) (by decide))
    |>.tail (PipeStep.fetched _ 1 1 (by decide))
    |>.tail (PipeStep.handoff _ 1 1 (by decide) (by decide) (by decide) (by decide))
    |>.tail (PipeStep.enqueue _ 1 (by decide))
    |>.tail (PipeStep.gatePass _ 1 (by decide) (by decide))
    |>.tail (PipeStep.dispatch _ 1 (by decide) (by decide))
    |>.tail (PipeStep.fetched _ 1 2 (by decide))
    |>.tail (PipeStep.handoff _ 1 2 (by decide) (by decide) (by decide) (by decide))
    |>.tail (PipeStep.enqueue _ 2 (by decide))
    |>.tail (PipeStep.gatePark _ 1 (by decide) (by decide))
    |>.tail (PipeStep.fetched _ 0 0 (by decide))
    |>.tail (PipeStep.handoff _ 0 0 (by decide) (by decide) (by decide) (by decide))
    |>.tail (PipeStep.enqueue _ 0 (by decide)))

/-- A one-worker state parked at the gate, used to witness the gate half of
`c5_qwait_bound`. -/
def c5ParkedSt : PipeSt :=
  { workers := [.parked], nextDispatch := 1, qWait := [], qWaitLen := 0,
    pending := none, readerId := 0, readerHolding := false }

/-- Witness for `c5_qwait_bound` at concrete states. -/
theorem c5_qwait_bound_witness :
    (pipeInit 2).qWaitLen ≤ qWaitMax + 2 ∧ c5ParkedSt.qWaitLen < qWaitMax :=
  ⟨c5_qwait_bound.1 2 3 (pipeInit 2) Relation.ReflTransGen.refl,
   c5_qwait_bound.2 3 c5ParkedSt _ 0
     (PipeStep.unpark c5ParkedSt 0 (by decide) (by decide))
     (Or.inr (by decide)) (by decide)⟩

/-! Section: async put controller (`PutController.Stop`, `gopkg.in/tomb.v2`)

The `tomb.Tomb` used by the controller is embedded by its death reason:
`alive` (`ErrStillAlive`), `done` (killed with a `nil` reason), or
`err msg` (killed with a non-nil error).  `tomb.Kill` sets the reason if
the tomb is still alive, and upgrades a `nil` reason to a non-nil one but
never overwrites a non-nil reason; `tomb.Wait` blocks until the tracked
goroutines return and then yields the reason.  The controller's supervisor
goroutine (`PutController.loop`) returns `nil` on `Dying`, which the tomb
records as a final `Kill(nil)`. -/

/-- A `tomb.Tomb`, by its death reason. -/
inductive TombReason where
  | alive
  | done
  | err (msg : String)
deriving DecidableEq, Repr

/-- Model of `tomb.Kill`: `none` models killing with a `nil` error. -/
def tombKill (t : TombReason) (reason : Option String) : TombReason :=
  match t with
  | .alive =>
    match reason with
    | none => .done
    | some m => .err m
  | .done =>
    match reason with
    | none => .done
    | some m => .err m
  | .err m => .err m

/-- Model of `tomb.Wait` (after all tracked goroutines finished): the death reason,
`none` for a `nil` reason. -/
def tombWait (t : TombReason) : Option String :=
  match t with
  | .err m => some m
  | _ => none

/-- Message of `var ErrStopped = errors.New("Stopped")`. -/
def ErrStopped : String := "Stopped"

/-- The `PutController` fields that `Stop` touches. -/
structure PutCtl where
  t : TombReason
  State : String
  Reason : String
deriving DecidableEq, Repr

/-- Model of `err.Error()` for the error value `Wait` returned (called by `Stop`
only when the tomb died with a non-nil reason). -/
def errString (e : Option String) : String :=
  match e with
  | some m => m
  | none => ""

/-- Model of `PutController.Stop`: `p.t.Kill(ErrStopped)`, then `p.t.Wait()`
(during which the supervisor loop observes `Dying`, force-closes the
in-flight part readers, and returns `nil`, recorded as a final
`Kill(nil)`), then `p.State = "Failed"` and `p.Reason = err.Error()`. -/
def putStop (p : PutCtl) : PutCtl × Option String :=
  let t1 := tombKill p.t (some ErrStopped)
  let t2 := tombKill t1 none
  let e := tombWait t2
  ({ p with t := t2, State := "Failed", Reason := errString e }, e)

/-- Claim C6: calling `Stop()` on a controller whose tomb is still alive
(the upload in progress) leaves `State = "Failed"` and
`Reason = "Stopped"` when `Stop` returns, and `Stop` returns the
`Stopped` error. -/
theorem c6_stop_failed_stopped (p : PutCtl) (h : p.t = .alive) :
    (putStop p).1.State = "Failed"
    ∧ (putStop p).1.Reason = "Stopped"
    ∧ (putStop p).2 = some "Stopped" := by
  simp [putStop, tombKill, tombWait, errString, ErrStopped, h]

/-- Witness for `c6_stop_failed_stopped` on a freshly started controller. -/
theorem c6_stop_failed_stopped_witness :
    (putStop { t := .alive, State := "Uploading", Reason := "" }).1.State = "Failed"
    ∧ (putStop { t := .alive, State := "Uploading", Reason := "" }).1.Reason = "Stopped"
    ∧ (putStop { t := .alive, State := "Uploading", Reason := "" }).2 = some "Stopped" :=
  c6_stop_failed_stopped { t := .alive, State := "Uploading", Reason := "" } rfl

/-! Section: speed tracker (`speedTracker`, `util.go`)

`float64` arithmetic is modelled over `ℚ`, with `int64(...)` conversion as
truncation toward zero; the claim under study is about which fields the
update reads and writes, not rounding. -/

/-- Go's `int64(f)`: truncation toward zero. -/
def ratTrunc (q : ℚ) : Int :=
  if 0 ≤ q then ⌊q⌋ else ⌈q⌉

/-- Model of `rollingAvg` with `smoothingFactor = 0.05`. -/
def rollingAvg (existing nw : Int) : Int :=
  ratTrunc ((1 / 20 : ℚ) * (nw : ℚ) + (1 - 1 / 20 : ℚ) * (existing : ℚ))

/-- The `speedTracker` struct: smoothed `Speed`, plus the `lastTime` and
`lastDone` samples (times are rationals in seconds). -/
structure SpeedTracker where
  Speed : Int
  lastTime : ℚ
  lastDone : Int
deriving DecidableEq, Repr

/-- Model of `newSpeedTracker()` at creation instant `now`. -/
def newSpeedTracker (now : ℚ) : SpeedTracker :=
  { Speed := 0, lastTime := now, lastDone := 0 }

/-- Model of `speedTracker.update(bytesNow)` invoked at instant `timeNow`: computes
`newBytes = bytesNow - s.lastDone` and
`elapsedSeconds = timeNow - s.lastTime`, forms
`newSpeed = int64(newBytes / elapsedSeconds)`, and stores
`rollingAvg(s.Speed, newSpeed)` in `Speed`.  Exactly as in the source, no
other field is assigned. -/
def speedUpdate (s : SpeedTracker) (bytesNow : Int) (timeNow : ℚ) :
    SpeedTracker × Int :=
  let newBytes : Int := bytesNow - s.lastDone
  let elapsedSeconds : ℚ := timeNow - s.lastTime
  let newSpeed : Int := ratTrunc ((newBytes : ℚ) / elapsedSeconds)
  let s2 := { s with Speed := rollingAvg s.Speed newSpeed }
  (s2, s2.Speed)

/-- Claim C7 (the code, at the claim's failing input): `update` never
assigns `lastDone` or `lastTime`, so the "byte delta since the immediately
preceding call" the claim describes is not what the code computes: after
`update(100)` at `t = 1` on a tracker created at `t = 0`, the recorded
samples still read `lastDone = 0`, `lastTime = 0`, and the follow-up
`update(150)` at `t = 2` smooths `trunc(150/2) = 75` (yielding `Speed = 8`)
instead of the claim's `trunc((150-100)/(2-1)) = 50` (which would yield
`Speed = 7`). -/
theorem c7_speed_tracker_no_advance :
    (∀ (s : SpeedTracker) (b : Int) (t : ℚ),
      (speedUpdate s b t).1.lastDone = s.lastDone
      ∧ (speedUpdate s b t).1.lastTime = s.lastTime)
    ∧ (speedUpdate (speedUpdate (newSpeedTracker 0) 100 1).1 150 2).1.lastDone = 0
    ∧ (speedUpdate (speedUpdate (newSpeedTracker 0) 100 1).1 150 2).1.lastTime = 0
    ∧ (speedUpdate (speedUpdate (newSpeedTracker 0) 100 1).1 150 2).1.Speed = 8
    ∧ rollingAvg (speedUpdate (newSpeedTracker 0) 100 1).1.Speed
        (ratTrunc ((150 - 100 : ℚ) / (2 - 1 : ℚ))) = 7 := by
  refine ⟨fun s b t => ⟨rfl, rfl⟩, rfl, rfl, ?_, ?_⟩
  · show ratTrunc _ = 8
    norm_num [speedUpdate, newSpeedTracker, rollingAvg, ratTrunc]
  · norm_num [speedUpdate, newSpeedTracker, rollingAvg, ratTrunc]

/-! Section: `readerWrapper.Seek` (`util.go`)

The method body is

    func (r readerWrapper) Seek(offset int64, whence int) (abs int64, err error) {
        abs, err = r.Seek(offset, whence)
        *r.bytesdone = abs
        return
    }

`r.Seek` resolves to the method itself (the embedded `io.Reader` has no
`Seek`), so the call recurses with the same arguments forever.  The
embedding gives the recursion a call-depth budget: `none` means the budget
is exhausted without the call ever returning.  (Contrast
`seekReaderWrapperSeek` below, the sibling `seekReaderWrapper.Seek`, which
delegates to the wrapped `ReadSeeker` and records the absolute offset.) -/

/-- Model of `readerWrapper.Seek` under a call-depth budget; `some (abs, done)`
would be a returned offset together with the recorded `bytesdone`. -/
def readerWrapperSeek : Nat → Int → Int → Option (Int × Int)
  | 0, _, _ => none
  | fuel + 1, offset, whence =>
    match readerWrapperSeek fuel offset whence with
    | none => none
    | some (abs, _) => some (abs, abs)

/-- Model of `seekReaderWrapper.Seek`, the intended behaviour: delegate to the
underlying seeker and record the resulting absolute offset. -/
def seekReaderWrapperSeek (underlying : Int → Int → Int)
    (offset whence : Int) : Int × Int :=
  let abs := underlying offset whence
  (abs, abs)

/-- Claim C8 (the code, at the claim's failing input): `readerWrapper.Seek`
never returns for any arguments and any finite call depth: it recurses on
itself, so it neither terminates nor delegates to the wrapped byte source
(while the sibling `seekReaderWrapper.Seek` returns the underlying seeker's
offset and records it). -/
theorem c8_reader_wrapper_seek_diverges :
    (∀ (fuel : Nat) (offset whence : Int),
      readerWrapperSeek fuel offset whence = none)
    ∧ (∀ (underlying : Int → Int → Int) (offset whence : Int),
      seekReaderWrapperSeek underlying offset whence
        = (underlying offset whence, underlying offset whence)) := by
  constructor
  · intro fuel
    induction fuel with
    | zero => intro offset whence; rfl
    | succ n ih =>
      intro offset whence
      rw [readerWrapperSeek, ih offset whence]
  · intro underlying offset whence
    rfl

/-! Section: empty-path guard (`Bucket.GetReader`, `Bucket.GetAsync`)

Both entry points check `path == ""` before anything else — before URL
construction, before `newGetter` (whose first action is the sizing GET
request and which, on a 200 response with a defined content length,
allocates the buffer pool, spawns `concurrency` workers and starts the
dispatcher).  The embedding returns, alongside the result, the list of
externally visible effects performed, so "immediately, without issuing any
HTTP request and without spawning workers or allocating a buffer pool" is
the statement that the effect list is empty. -/

/-- Externally visible effects of opening a getter. -/
inductive Effect where
  | httpRequest
  | allocBufferPool
  | spawnWorker
  | startDispatcher
  | startController
  | startCopier
deriving DecidableEq, Repr

/-- Outcome of the sizing GET request issued by `newGetter`. -/
structure SizingResp where
  status : Nat
  contentLength : Int
deriving DecidableEq, Repr

/-- Model of `newGetter`: issues the sizing GET, rejects non-200 responses and
undefined content lengths, otherwise allocates the buffer pool, spawns
`max(concurrency, 1)` workers and starts `initChunks`. -/
def newGetterEff (conc : Nat) (resp : SizingResp) :
    List Effect × Except String Unit :=
  if resp.status ≠ 200 then ([.httpRequest], .error "response error")
  else if resp.contentLength = -1 then
    ([.httpRequest],
     .error "Retrieving objects with undefined content-length  responses (chunked transfer encoding / EOF close) is not supported")
  else
    ([.httpRequest, .allocBufferPool]
      ++ List.replicate (max conc 1) .spawnWorker ++ [.startDispatcher],
     .ok ())

/-- Model of `Bucket.GetReader`: the empty-path guard, then URL construction
(`urlOk` abstracts `b.url` succeeding), then `newGetter`. -/
def getReaderEff (path : String) (conc : Nat) (urlOk : Bool)
    (resp : SizingResp) : List Effect × Except String Unit :=
  if path = "" then ([], .error "empty path requested")
  else if urlOk = false then ([], .error "url error")
  else newGetterEff conc resp

/-- Model of `Bucket.GetAsync`: the same guard and opening sequence, then the
supervisor (tomb) goroutine and the `io.Copy` goroutine. -/
def getAsyncEff (path : String) (conc : Nat) (urlOk : Bool)
    (resp : SizingResp) : List Effect × Except String Unit :=
  if path = "" then ([], .error "empty path requested")
  else if urlOk = false then ([], .error "url error")
  else
    match newGetterEff conc resp with
    | (eff, .error e) => (eff, .error e)
    | (eff, .ok ()) => (eff ++ [.startController, .startCopier], .ok ())

/-- Claim C9: for the empty path, both `GetReader` and `GetAsync` return the
error `"empty path requested"` with an empty effect list: no HTTP request,
no buffer pool, no workers. -/
theorem c9_empty_path (conc : Nat) (urlOk : Bool) (resp : SizingResp) :
    getReaderEff "" conc urlOk resp = ([], .error "empty path requested")
    ∧ getAsyncEff "" conc urlOk resp = ([], .error "empty path requested") :=
  ⟨rfl, rfl⟩

/-! Section: `S3.Region` (`s3gof3r.go`)

`regionMatcher = regexp.MustCompile("s3-([a-z0-9-]+).amazonaws.com")`: an
unanchored pattern whose unescaped dots match any character.
`FindStringSubmatch` is embedded directly for this one pattern: scan for
the leftmost position where the literal `s3-` is followed by a non-empty
run of `[a-z0-9-]` characters (greedy, longest first) and then by
`. amazonaws . com` with `.` matching any single character; the captured
group is the run. -/

/-- The character class `[a-z0-9-]`. -/
def isRegionChar (c : Char) : Bool :=
  (Char.isLower c && Char.isAlpha c) || Char.isDigit c || c = '-'

/-- Strip an exact literal from the front of the input, yielding the rest. -/
def stripLit : List Char → List Char → Option (List Char)
  | [], s => some s
  | _ :: _, [] => none
  | a :: lit, b :: s => if a = b then stripLit lit s else none

/-- Match the pattern tail `.amazonaws.com` (any char, the literal
`amazonaws`, any char, the literal `com`; trailing input is free since the
pattern is unanchored). -/
def tailMatch (t : List Char) : Bool :=
  match t with
  | [] => false
  | _ :: t1 =>
    match stripLit ("amazonaws".toList) t1 with
    | none => false
    | some [] => false
    | some (_ :: t2) => (stripLit ("com".toList) t2).isSome

/-- Greedy group length: try the longest run first, backing off while the
pattern tail fails to match. -/
def tryGroupLen (rest : List Char) : Nat → Option Nat
  | 0 => none
  | k + 1 => if tailMatch (rest.drop (k + 1)) then some (k + 1) else tryGroupLen rest k

/-- Attempt a match of the whole pattern at the current position, returning
the captured `([a-z0-9-]+)` group. -/
def matchAt (l : List Char) : Option (List Char) :=
  match stripLit ("s3-".toList) l with
  | none => none
  | some rest =>
    match tryGroupLen rest (rest.takeWhile isRegionChar).length with
    | none => none
    | some k => some (rest.take k)

/-- Model of `regionMatcher.FindStringSubmatch`: the captured group at the leftmost
matching position, if any. -/
def findRegionMatch : List Char → Option (List Char)
  | [] => none
  | c :: t =>
    match matchAt (c :: t) with
    | some r => some r
    | none => findRegionMatch t

/-- Model of `S3.Region()`: the fixed-endpoint switch, the regex extraction, the
`AWS_REGION` fallback (`env`), and otherwise
`panic("can't find endpoint region")`, modelled as the `error` case. -/
def s3Region (domain env : String) : Except String String :=
  if domain = "s3.amazonaws.com" ∨ domain = "s3-external-1.amazonaws.com" then
    .ok "us-east-1"
  else
    match findRegionMatch domain.toList with
    | some r => .ok (String.mk r)
    | none => if env ≠ "" then .ok env else .error "can't find endpoint region"

/-- Claim C10: `Region()` panics with `can't find endpoint region` exactly
for domains that are not a recognized fixed endpoint, do not match the
region pattern, and have no `AWS_REGION` fallback; every other domain
yields a region string without panicking.  Concretely: the regional
endpoint `s3-sa-east-1.amazonaws.com` extracts `sa-east-1` (the
repository's own test vector), an unrecognized domain panics when
`AWS_REGION` is empty and returns `AWS_REGION` when set, and the fixed
endpoint maps to `us-east-1`. -/
theorem c10_region_panic_iff :
    (∀ domain env, s3Region domain env = .error "can't find endpoint region" ↔
      (¬(domain = "s3.amazonaws.com" ∨ domain = "s3-external-1.amazonaws.com")
        ∧ findRegionMatch domain.toList = none ∧ env = ""))
    ∧ (∀ domain env, s3Region domain env = .error "can't find endpoint region"
        ∨ ∃ r, s3Region domain env = .ok r)
    ∧ s3Region "s3-sa-east-1.amazonaws.com" "" = .ok "sa-east-1"
    ∧ s3Region "minio.internal.example" "" = .error "can't find endpoint region"
    ∧ s3Region "minio.internal.example" "eu-central-1" = .ok "eu-central-1"
    ∧ s3Region "s3.amazonaws.com" "" = .ok "us-east-1" := by
  refine ⟨?_, ?_, by rfl, by rfl, by rfl, by rfl⟩
  · intro domain env
    rw [s3Region]
    split
    · simp_all
    · rename_i hfix
      cases hm : findRegionMatch domain.toList with
      | some r => simp [hfix, hm]
      | none =>
        by_cases he : env = ""
        · simp [hfix, hm, he]
        · simp [hfix, hm, he]
  · intro domain env
    rw [s3Region]
    split
    · exact Or.inr ⟨_, rfl⟩
    · cases hm : findRegionMatch domain.toList with
      | some r => exact Or.inr ⟨_, rfl⟩
      | none =>
        by_cases he : env = ""
        · simp [he]
        · simp [he]
